import Mathlib

/-!
# Verification of the inference module of `ai-inference-debug`

Shallow embedding of `src/inference.ts` (the defensive completion caller
`chatCompletion`, the one-shot `simpleInference` response handling, and the
tool-augmented `mcpInference` loop), together with theorems settling the
specification claims about them.

Strings are modelled as `List Char` (`Str`). The transport boundary returns a
dynamically typed JavaScript value, modelled by `JSValue`; `JSON.parse` is an
external platform function and is therefore a parameter (`parse`) of the
embedded `chatCompletion`.
-/

/-- JavaScript strings, modelled as lists of characters. -/
abbrev Str := List Char

/-- A dynamically typed JavaScript value, as returned by the completion
transport (`client.chat.completions.create` is typed `any` at the call site).
Numbers are modelled as integers: only their `typeof` and truthiness matter to
the embedded code. -/
inductive JSValue where
  | str (s : Str)
  | num (n : Int)
  | bool (b : Bool)
  | null
  | undefined
  | arr (elems : List JSValue)
  | obj (fields : List (Str × JSValue))

/-- JavaScript truthiness (`!response` is its negation). -/
def jsTruthy : JSValue → Bool
  | .str s => s ≠ []
  | .num n => n ≠ 0
  | .bool b => b
  | .null => false
  | .undefined => false
  | .arr _ => true
  | .obj _ => true

/-- `typeof v === 'object'` (true for objects, arrays and `null`). -/
def typeofIsObject : JSValue → Bool
  | .obj _ => true
  | .arr _ => true
  | .null => true
  | _ => false

/-- `typeof v === 'string'`. -/
def typeofIsString : JSValue → Bool
  | .str _ => true
  | _ => false

/-- The property name `choices`. -/
def choicesKey : Str := 'c' :: 'h' :: 'o' :: 'i' :: 'c' :: 'e' :: 's' :: []

/-- `'choices' in v`, evaluated only on truthy objects in the source (short
circuit); our model arrays only carry numeric indices, so the check is false
on them. -/
def hasChoicesIn : JSValue → Bool
  | .obj fields => fields.any fun kv => kv.1 = choicesKey
  | _ => false

/-- The guard of line 236 of `inference.ts`:
`!response || typeof response !== 'object' || !('choices' in response)`
is the negation of this predicate. -/
def validShape (v : JSValue) : Bool :=
  jsTruthy v && typeofIsObject v && hasChoicesIn v

mutual

/-- `JSON.stringify` on our value model (used only to build the bounded
preview of a shape failure): `undefined` serializes to no string at all,
object fields with `undefined` values are dropped, array holes become
`null`. -/
def stringifyJS : JSValue → Option Str
  | .str s => some ('"' :: s ++ ['"'])
  | .num n => some (toString n).data
  | .bool true => some ('t' :: 'r' :: 'u' :: 'e' :: [])
  | .bool false => some ('f' :: 'a' :: 'l' :: 's' :: 'e' :: [])
  | .null => some ('n' :: 'u' :: 'l' :: 'l' :: [])
  | .undefined => none
  | .arr elems => some ('[' :: stringifyArr elems ++ [']'])
  | .obj fields => some ('\x7b' :: stringifyObj fields ++ ['\x7d'])

/-- Serialize array elements, comma separated; `undefined` entries render as
`null` as `JSON.stringify` does. -/
def stringifyArr : List JSValue → Str
  | [] => []
  | [v] => (stringifyJS v).getD ('n' :: 'u' :: 'l' :: 'l' :: [])
  | v :: rest => (stringifyJS v).getD ('n' :: 'u' :: 'l' :: 'l' :: []) ++ ',' :: stringifyArr rest

/-- Serialize object fields, comma separated; fields whose value serializes to
nothing (`undefined`) are dropped. -/
def stringifyObj : List (Str × JSValue) → Str
  | [] => []
  | (k, v) :: rest =>
    match stringifyJS v with
    | none => stringifyObj rest
    | some sv =>
      let entry := '"' :: k ++ '"' :: ':' :: sv
      match rest with
      | [] => entry
      | _ =>
        match stringifyObj rest with
        | [] => entry
        | srest => entry ++ ',' :: srest

end

/-- The error thrown by `chatCompletion`, with the values interpolated into the
`Error` message kept as structured fields: `stringNotJson` is the line 230
error (string response, `JSON.parse` failed; carries the decode error message
and the first-400-character preview), `unexpectedShape` is the line 238 error
(no `choices`; carries the possibly-absent first-800-character preview of the
serialized value). -/
inductive ChatError where
  | stringNotJson (context : Str) (decodeErrMsg : Str) (preview : Str)
  | unexpectedShape (context : Str) (preview : Option Str)
deriving DecidableEq

/-- `chatCompletion` from `src/inference.ts` lines 214–247, embedded from the
point where the transport's return value `response` is in hand. `parse`
models the platform's `JSON.parse`, returning either the decoded value or a
decode error message. A string response is re-decoded (decode failure throws
`stringNotJson` with a 400-character preview); the result must then be a
truthy object with a `choices` property or `unexpectedShape` is thrown with an
800-character preview of its serialization. The `catch` block only logs and
rethrows, so it does not change the returned value. -/
def chatCompletion (parse : Str → Except Str JSValue) (context : Str)
    (response : JSValue) : Except ChatError JSValue :=
  let decoded : Except ChatError JSValue :=
    match response with
    | .str s =>
      match parse s with
      | .ok v => .ok v
      | .error e => .error (.stringNotJson context e (s.take 400))
    | v => .ok v
  match decoded with
  | .error e => .error e
  | .ok r =>
    if validShape r then .ok r
    else .error (.unexpectedShape context ((stringifyJS r).map fun s => s.take 800))

/-- Restatement of the (amended) claim C1's acceptance condition in the
spec's vocabulary, independent of `chatCompletion`'s control flow: the value
is an object carrying a `choices` key. -/
def objWithChoicesKey : JSValue → Bool
  | .obj fields => fields.any fun kv => kv.1 = choicesKey
  | _ => false

/-- The full acceptance condition of the defensive caller, stated
declaratively: either the value itself is an object with a `choices` key, or
it is a string that decodes to one. -/
def callerAccepts (parse : Str → Except Str JSValue) : JSValue → Bool
  | .str s =>
    match parse s with
    | .ok w => objWithChoicesKey w
    | .error _ => false
  | v => objWithChoicesKey v

/-- JavaScript whitespace (`\s` in a regex): space, tab, line terminators,
vertical tab, form feed, NBSP, the Unicode space separators, and BOM. -/
def isJsWhitespace (c : Char) : Bool :=
  c = ' ' || c = '\t' || c = '\n' || c = '\r' || c = '\x0b' || c = '\x0c' ||
  c = ' ' || c = ' ' || (' ' ≤ c && c ≤ ' ') ||
  c = ' ' || c = ' ' || c = ' ' || c = ' ' ||
  c = '　' || c = '﻿'

/-- JavaScript line terminators, which `.` in a regex does not match. -/
def isLineTerminator (c : Char) : Bool :=
  c = '\n' || c = '\r' || c = ' ' || c = ' '

/-- The literal `<thought>`. -/
def thoughtOpen : Str := "<thought>".data

/-- The literal `</thought>`. -/
def thoughtClose : Str := "</thought>".data

/-- The `(.*?)<\/thought>` part of the regex on line 94 of `inference.ts`:
scan for the leftmost position reachable through non-line-terminator
characters where `</thought>` matches, returning the thought body and the
remainder after the closing tag (non-greedy: the first match wins). -/
def scanThoughtBody : Str → Option (Str × Str)
  | [] => none
  | c :: cs =>
    if thoughtClose.isPrefixOf (c :: cs) then
      some ([], (c :: cs).drop thoughtClose.length)
    else if isLineTerminator c then none
    else
      match scanThoughtBody cs with
      | some (body, rest) => some (c :: body, rest)
      | none => none

/-- `modelResponse.match(/^\s*<thought>(.*?)<\/thought>/)`: skip leading
whitespace (greedy, and no whitespace character can begin `<thought>`, so no
backtracking is possible), require the literal `<thought>`, then find the
non-greedy body. Returns `(body, rest)` where the full match is everything
before `rest`. -/
def matchThought (s : Str) : Option (Str × Str) :=
  let t := s.dropWhile isJsWhitespace
  if thoughtOpen.isPrefixOf t then
    scanThoughtBody (t.drop thoughtOpen.length)
  else none

/-- `modelResponse = modelResponse.substring(match[0].length)` when the
regex matched (line 99), the identity otherwise. -/
def stripThought (s : Str) : Str :=
  match matchThought s with
  | some (_, rest) => rest
  | none => s

/-- `x || null` on a JavaScript `string | null | undefined` value: the empty
string is falsy and collapses to `null`. -/
def jsStrOrNull : Option Str → Option Str
  | some s => if s = [] then none else some s
  | none => none

/-- Lines 91–110 of `inference.ts`: the value `simpleInference` returns, as a
function of `response.choices[0]?.message?.content`. A falsy content (absent
or empty) skips the thought-stripping block; the final statement is
`return modelResponse || null`. -/
def simpleInferenceResult : Option Str → Option Str
  | none => none
  | some s => if s = [] then none else jsStrOrNull (some (stripThought s))

/-- Message roles. -/
inductive Role where
  | system
  | user
  | assistant
  | tool
deriving DecidableEq

/-- The function part of a tool call (`{name, arguments}`). -/
structure FunctionCall where
  name : Str
  arguments : Str
deriving DecidableEq

/-- A tool call requested by the model (`{id, type, function}`), as in the
`InferenceResponse` interface; `arguments` stays an uninterpreted string. -/
structure ToolCall where
  id : Str
  type : Str
  function : FunctionCall
deriving DecidableEq

/-- The `ChatMessage` interface of `inference.ts`: `content` is
`string | null`, `tool_calls` and `tool_call_id` are optional. -/
structure ChatMessage where
  role : Role
  content : Option Str
  tool_calls : Option (List ToolCall) := none
  tool_call_id : Option Str := none
deriving DecidableEq

/-- The element type of `InferenceRequest.messages`: role plus string
content only. -/
structure SimpleMessage where
  role : Role
  content : Str
deriving DecidableEq

/-- The upcast applied when `request.messages` seeds the loop-local
`ChatMessage[]` history. -/
def SimpleMessage.toChat (m : SimpleMessage) : ChatMessage :=
  { role := m.role, content := some m.content }

/-- The declared response format: the TS type pins `type` to the literal
`json_schema`; the schema itself is an opaque value. -/
structure ResponseFormat where
  type : Str
  json_schema : JSValue

/-- Tool definitions (`githubMcpClient.tools`) are opaque values forwarded
verbatim to the transport. -/
abbrev ToolDef := JSValue

/-- The `InferenceRequest` interface of `inference.ts`. Sampling parameters
are opaque pass-through numbers, modelled as rationals. -/
structure InferenceRequest where
  messages : List SimpleMessage
  modelName : Str
  maxTokens : Nat
  endpoint : Str
  token : Str
  temperature : Option Rat := none
  topP : Option Rat := none
  responseFormat : Option ResponseFormat := none
  customHeaders : Option (List (Str × Str)) := none

/-- The chat-completion parameters built on each pass of the loop (lines
141–155): base fields from the request, then either the response format
(final pass) or the tool definitions (every other pass). -/
structure CompletionParams where
  messages : List ChatMessage
  max_tokens : Nat
  model : Str
  temperature : Option Rat
  top_p : Option Rat
  response_format : Option ResponseFormat := none
  tools : Option (List ToolDef) := none

/-- Lines 141–155: build one pass's parameters. `response_format` is attached
iff `finalMessage && request.responseFormat`; otherwise the tools are. -/
def mkMcpParams (req : InferenceRequest) (tools : List ToolDef)
    (messages : List ChatMessage) (finalMessage : Bool) : CompletionParams :=
  let base : CompletionParams :=
    { messages := messages, max_tokens := req.maxTokens, model := req.modelName,
      temperature := req.temperature, top_p := req.topP }
  if finalMessage && req.responseFormat.isSome then
    { base with response_format := req.responseFormat }
  else
    { base with tools := some tools }

/-- What one pass's completion call yields after the defensive caller and
the `response.choices[0]?.message` projection: possibly-null content and an
optional tool-call list. -/
structure AssistantReply where
  content : Option Str := none
  tool_calls : Option (List ToolCall) := none

/-- The loop's environment: `reply i` is the outcome of the pass-`i`
completion call, already validated by the defensive caller and projected to
`choices[0]?.message` (`none` when the choices list is empty; `.error` when
`chatCompletion` threw — the catch block at lines 192–195 only logs and
rethrows). `toolResults i` supplies the textual results of the tool
executions requested on pass `i`. -/
structure LoopOracle where
  reply : Nat → Except ChatError (Option AssistantReply)
  toolResults : Nat → List Str

/-- Modelled from the spec: `executeToolCalls` lives in `src/mcp.ts`, which is
not among the provided sources. Per spec §4.4 it returns one `tool` message
per requested call, in the same order as the input list, each echoing the
matching `tool_call_id` unchanged, with the tool's textual result (failures
included, rendered as content) as its content. The result texts themselves
come from the outside world and are supplied by the caller. -/
def executeToolCalls (results : List Str) (toolCalls : List ToolCall) :
    List ChatMessage :=
  toolCalls.enum.map fun ic =>
    { role := .tool, content := some (results.getD ic.1 []),
      tool_call_id := some ic.2.id }

/-- The synthetic reformatting user message pushed at lines 177–180. -/
def reformatMessage (rf : ResponseFormat) : ChatMessage :=
  { role := .user,
    content := some ("Please provide your response in the exact ".data ++
      rf.type ++ " format specified.".data) }

/-- Lines 200–205: scan the history backward for the most recent assistant
message. -/
def lastAssistantMessage (messages : List ChatMessage) : Option ChatMessage :=
  messages.reverse.find? fun m => m.role == Role.assistant

/-- One executed pass of the loop: the iteration counter value, the
`finalMessage` flag in force, and the parameters sent. -/
structure PassRecord where
  iteration : Nat
  finalFlag : Bool
  params : CompletionParams

/-- Everything observable about one `mcpInference` run: the returned value
(or thrown error), the final conversation history, the per-pass trace, and
the final state of `request.messages` (threaded explicitly: line 129 copies
it into the loop-local history, and pushes go to the copy only). -/
structure LoopResult where
  outcome : Except ChatError (Option Str)
  messages : List ChatMessage
  trace : List PassRecord
  requestMessages : List SimpleMessage

/-- The `while (iterationCount < maxIterations)` loop of `mcpInference`
(lines 137–206), with `fuel = maxIterations - iterationCount` as the
decreasing measure. Each pass increments the counter, builds parameters,
consults the oracle, pushes the assistant message (content defaulted to the
empty string, `tool_calls` attached whenever the field was present), and then
either returns (`modelResponse || null`), pushes the synthetic reformat
message and continues with `finalMessage = true`, or executes the tool calls
and continues. Fuel exhaustion is the code after the loop: return the most
recent assistant message's content `|| null`. -/
def mcpLoopAux (oracle : LoopOracle) (req : InferenceRequest)
    (tools : List ToolDef) (reqMessages : List SimpleMessage) (fuel : Nat)
    (iterationCount : Nat) (messages : List ChatMessage)
    (finalMessage : Bool) : LoopResult :=
  match fuel with
  | 0 =>
    { outcome := .ok (jsStrOrNull ((lastAssistantMessage messages).bind (·.content))),
      messages := messages, trace := [], requestMessages := reqMessages }
  | fuel + 1 =>
    let iter := iterationCount + 1
    let pass : PassRecord :=
      { iteration := iter, finalFlag := finalMessage,
        params := mkMcpParams req tools messages finalMessage }
    match oracle.reply iter with
    | .error e =>
      { outcome := .error e, messages := messages, trace := [pass],
        requestMessages := reqMessages }
    | .ok assistantMessage =>
      let modelResponse : Option Str := assistantMessage.bind (·.content)
      let toolCalls : Option (List ToolCall) := assistantMessage.bind (·.tool_calls)
      let messages := messages ++
        [{ role := .assistant, content := some (modelResponse.getD []),
           tool_calls := toolCalls }]
      match toolCalls with
      | some (tc :: tcs) =>
        let toolResults := executeToolCalls (oracle.toolResults iter) (tc :: tcs)
        let r := mcpLoopAux oracle req tools reqMessages fuel iter
          (messages ++ toolResults) finalMessage
        { r with trace := pass :: r.trace }
      | _ =>
        match req.responseFormat, finalMessage with
        | some rf, false =>
          let r := mcpLoopAux oracle req tools reqMessages fuel iter
            (messages ++ [reformatMessage rf]) true
          { r with trace := pass :: r.trace }
        | _, _ =>
          { outcome := .ok (jsStrOrNull modelResponse), messages := messages,
            trace := [pass], requestMessages := reqMessages }

/-- `const maxIterations = 5` (line 132). -/
def maxIterations : Nat := 5

/-- `mcpInference`: seed the loop-local history with (a copy of) the request
messages, start the counter at 0 with `finalMessage = false`, and run the
loop. -/
def mcpInference (oracle : LoopOracle) (req : InferenceRequest)
    (tools : List ToolDef) : LoopResult :=
  mcpLoopAux oracle req tools req.messages maxIterations 0
    (req.messages.map SimpleMessage.toChat) false

/-- A concrete tool call used by concrete runs below. -/
def sampleToolCall : ToolCall :=
  { id := "call-1".data, type := "function".data,
    function := { name := "get".data, arguments := "null".data } }

/-- A concrete declared response format. -/
def sampleFormat : ResponseFormat :=
  { type := "json_schema".data, json_schema := .null }

/-- A concrete request without a response format. -/
def sampleRequest : InferenceRequest :=
  { messages := [{ role := .user, content := "question".data }],
    modelName := "model".data, maxTokens := 64, endpoint := "https".data,
    token := "secret".data }

/-- The same request with a declared response format. -/
def sampleRequestFmt : InferenceRequest :=
  { sampleRequest with responseFormat := some sampleFormat }

/-- An oracle whose model never requests tools. -/
def oracleNoTools : LoopOracle :=
  { reply := fun _ => .ok (some { content := some "hi".data }),
    toolResults := fun _ => [] }

/-- An oracle whose model requests one tool call on every pass. -/
def oracleAllTools : LoopOracle :=
  { reply := fun _ => .ok (some { content := some "work".data,
                                  tool_calls := some [sampleToolCall] }),
    toolResults := fun _ => ["result".data] }

/-- An oracle that answers `draft` on pass 1 and `final` afterwards, never
requesting tools. -/
def oracleReformat : LoopOracle :=
  { reply := fun i =>
      .ok (some { content := some (if i = 1 then "draft".data else "final".data) }),
    toolResults := fun _ => [] }

/-- An oracle with no tool calls on pass 1 but tool calls on every later
pass (despite no tools being offered there). -/
def oracleLateTools : LoopOracle :=
  { reply := fun i => .ok (some { content := some "draft".data,
                                  tool_calls :=
                                    if i = 1 then none else some [sampleToolCall] }),
    toolResults := fun _ => ["result".data] }

/-- The pass record produced by the first (and only) pass of
`mcpInference oracleNoTools sampleRequest []`. -/
def samplePassRecord : PassRecord :=
  { iteration := 1, finalFlag := false,
    params := mkMcpParams sampleRequest []
      (sampleRequest.messages.map SimpleMessage.toChat) false }

/-- The shape guard of line 236 accepts exactly the objects carrying a
`choices` key. -/
theorem validShape_eq_objWithChoicesKey (v : JSValue) :
    validShape v = objWithChoicesKey v := by
  cases v <;>
    simp [validShape, jsTruthy, typeofIsObject, hasChoicesIn, objWithChoicesKey]

/-- C1 (amended): `chatCompletion` succeeds exactly when the transport value
is an object containing a `choices` key, or a string that decodes to such an
object; equivalently it fails with the malformed-response error exactly
otherwise. Contrary to the claim as frozen, the emptiness of the `choices`
list is not checked (see the counterexample). -/
theorem C1_amended_acceptance (parse : Str → Except Str JSValue)
    (context : Str) (v : JSValue) :
    (chatCompletion parse context v).isOk = callerAccepts parse v := by
  cases v with
  | str s =>
    cases hp : parse s with
    | ok w =>
      cases hw : objWithChoicesKey w <;>
        simp [chatCompletion, callerAccepts, hp,
          validShape_eq_objWithChoicesKey, hw, Except.isOk, Except.toBool]
    | error e => simp [chatCompletion, callerAccepts, hp, Except.isOk, Except.toBool]
  | obj fields =>
    cases hw : objWithChoicesKey (.obj fields) <;>
      simp [chatCompletion, callerAccepts, validShape_eq_objWithChoicesKey,
        hw, Except.isOk, Except.toBool]
  | _ =>
    simp [chatCompletion, callerAccepts, validShape_eq_objWithChoicesKey,
      objWithChoicesKey, Except.isOk, Except.toBool]

/-- C1 (counterexample): the claim as frozen requires a structured object
whose `choices` list is empty to be rejected, but `chatCompletion` only tests
for the presence of a `choices` key, so the empty-choices object is accepted
and returned unchanged. -/
theorem C1_counterexample :
    chatCompletion (fun _ => .error "unused".data) "ctx".data
        (.obj [(choicesKey, .arr [])]) =
      .ok (.obj [(choicesKey, .arr [])]) := rfl

/-- C6: whenever the transport returns a string that fails to decode, the
raised error carries exactly the first 400 characters of the offending string
as its preview, together with the underlying decode error message. -/
theorem C6_decode_failure_preview (parse : Str → Except Str JSValue)
    (context s e : Str) (h : parse s = .error e) :
    chatCompletion parse context (.str s) =
      .error (.stringNotJson context e (s.take 400)) := by
  simp [chatCompletion, h]

/-- C6 witness: a 2000-character garbage string yields the error whose
preview is exactly its first 400 characters. -/
theorem C6_witness :
    chatCompletion (fun _ => .error "bad".data) "ctx".data
        (.str (List.replicate 2000 'g')) =
      .error (.stringNotJson "ctx".data "bad".data (List.replicate 400 'g')) := by
  have h := C6_decode_failure_preview (fun _ => .error "bad".data) "ctx".data
    (List.replicate 2000 'g') "bad".data rfl
  rw [List.take_replicate, (by norm_num : min 400 2000 = 400)] at h
  exact h

/-- C8: a transport value that is already a well-formed structured object
with a non-empty `choices` array is returned unchanged. -/
theorem C8_wellformed_unchanged (parse : Str → Except Str JSValue)
    (context : Str) (fields : List (Str × JSValue)) (c : JSValue)
    (cs : List JSValue) (h : (choicesKey, JSValue.arr (c :: cs)) ∈ fields) :
    chatCompletion parse context (.obj fields) = .ok (.obj fields) := by
  have hv : validShape (.obj fields) = true := by
    simp only [validShape, jsTruthy, typeofIsObject, hasChoicesIn,
      Bool.true_and, List.any_eq_true]
    exact ⟨(choicesKey, JSValue.arr (c :: cs)), h, by simp⟩
  show (if validShape (JSValue.obj fields) then
      (Except.ok (JSValue.obj fields) : Except ChatError JSValue)
    else .error (.unexpectedShape context
      ((stringifyJS (JSValue.obj fields)).map fun s => s.take 800))) =
    .ok (.obj fields)
  rw [hv]
  rfl

/-- C8 witness: a concrete object with one choice passes through unchanged. -/
theorem C8_witness :
    chatCompletion (fun _ => .error "bad".data) "ctx".data
        (.obj [(choicesKey, .arr [.null])]) =
      .ok (.obj [(choicesKey, .arr [.null])]) :=
  C8_wellformed_unchanged _ _ _ JSValue.null [] (List.mem_singleton_self _)

/-- The closing tag as an explicit character list. -/
theorem thoughtClose_eq :
    thoughtClose =
      '<' :: '/' :: 't' :: 'h' :: 'o' :: 'u' :: 'g' :: 'h' :: 't' :: '>' :: [] := rfl

/-- The opening tag as an explicit character list. -/
theorem thoughtOpen_eq :
    thoughtOpen =
      '<' :: 't' :: 'h' :: 'o' :: 'u' :: 'g' :: 'h' :: 't' :: '>' :: [] := rfl

/-- Scanning a body of ordinary characters (no `<`, no line terminator)
followed by the closing tag yields exactly that body and the remainder. -/
theorem scanThoughtBody_append (body rest : Str)
    (h : ∀ c ∈ body, c ≠ '<' ∧ isLineTerminator c = false) :
    scanThoughtBody (body ++ thoughtClose ++ rest) = some (body, rest) := by
  induction body with
  | nil =>
    rw [List.nil_append]
    simp [scanThoughtBody, thoughtClose_eq, List.isPrefixOf_cons₂]
  | cons c cs ih =>
    obtain ⟨hc, hl⟩ := h c (List.mem_cons_self c cs)
    have ih' := ih fun x hx => h x (List.mem_cons_of_mem c hx)
    have hne : ('<' == c) = false := beq_eq_false_iff_ne.mpr (Ne.symm hc)
    have hpre : thoughtClose.isPrefixOf (c :: (cs ++ thoughtClose ++ rest)) = false := by
      rw [thoughtClose_eq, List.isPrefixOf_cons₂, hne, Bool.false_and]
    show scanThoughtBody (c :: (cs ++ thoughtClose ++ rest)) = some (c :: cs, rest)
    simp only [scanThoughtBody, hpre, Bool.false_eq_true, if_false, hl, ih']

/-- Content that starts directly with the wrapper matches the regex there,
and the match consumes exactly the wrapper. -/
theorem matchThought_wrapper (body rest : Str)
    (h : ∀ c ∈ body, c ≠ '<' ∧ isLineTerminator c = false) :
    matchThought (thoughtOpen ++ body ++ thoughtClose ++ rest) = some (body, rest) := by
  have hw : isJsWhitespace '<' = false := by decide
  have hdrop : (thoughtOpen ++ body ++ thoughtClose ++ rest).dropWhile isJsWhitespace
      = thoughtOpen ++ body ++ thoughtClose ++ rest := by
    rw [show (thoughtOpen ++ body ++ thoughtClose ++ rest : Str) =
      '<' :: (('t' :: 'h' :: 'o' :: 'u' :: 'g' :: 'h' :: 't' :: '>' :: []) ++
        body ++ thoughtClose ++ rest) from rfl]
    rw [List.dropWhile_cons, hw]
    simp
  have hpre : thoughtOpen.isPrefixOf (thoughtOpen ++ body ++ thoughtClose ++ rest) = true := by
    simp only [List.isPrefixOf_iff_prefix, List.append_assoc]
    exact List.prefix_append _ _
  simp only [matchThought, hdrop, hpre, if_true]
  rw [List.append_assoc, List.append_assoc, List.drop_left, ← List.append_assoc]
  exact scanThoughtBody_append body rest h

/-- C7: for simple-inference content beginning with a single
`<thought>...</thought>` wrapper (body made of ordinary characters, matched
non-greedily at the start of the string), the wrapper is stripped and only the
remaining text is returned; the thought text is never part of the returned
value (an empty remainder surfaces as absent per the module's `|| null`
convention). -/
theorem C7_thought_stripping (body rest : Str)
    (h : ∀ c ∈ body, c ≠ '<' ∧ isLineTerminator c = false) :
    stripThought (thoughtOpen ++ body ++ thoughtClose ++ rest) = rest ∧
    (rest ≠ [] →
      simpleInferenceResult (some (thoughtOpen ++ body ++ thoughtClose ++ rest)) =
        some rest) := by
  have hm := matchThought_wrapper body rest h
  have h1 : stripThought (thoughtOpen ++ body ++ thoughtClose ++ rest) = rest := by
    simp only [stripThought, hm]
  refine ⟨h1, fun hrest => ?_⟩
  have hsne : thoughtOpen ++ body ++ thoughtClose ++ rest ≠ [] := by
    simp [thoughtOpen_eq]
  simp only [simpleInferenceResult, h1, jsStrOrNull]
  rw [if_neg hsne, if_neg hrest]

/-- C7 witness: content `<thought>plan</thought>Hello` yields exactly
`Hello`. -/
theorem C7_witness :
    simpleInferenceResult (some "<thought>plan</thought>Hello".data) =
      some "Hello".data :=
  (C7_thought_stripping "plan".data "Hello".data (by decide)).2 (by decide)

/-- `x || null` never yields the empty string. -/
theorem jsStrOrNull_ne_some_nil (o : Option Str) : jsStrOrNull o ≠ some [] := by
  cases o with
  | none => simp [jsStrOrNull]
  | some s => by_cases hs : s = [] <;> simp [jsStrOrNull, hs]

/-- The loop never writes to the request's message list: the threaded
`request.messages` state is returned untouched. -/
theorem mcpLoopAux_requestMessages (oracle : LoopOracle) (req : InferenceRequest)
    (tools : List ToolDef) (reqMessages : List SimpleMessage) (fuel : Nat)
    (iterationCount : Nat) (messages : List ChatMessage) (finalMessage : Bool) :
    (mcpLoopAux oracle req tools reqMessages fuel iterationCount messages
      finalMessage).requestMessages = reqMessages := by
  induction fuel generalizing iterationCount messages finalMessage with
  | zero => rfl
  | succ fuel ih =>
    simp only [mcpLoopAux]
    split
    · rfl
    · split
      · simpa using ih ..
      · split
        · simpa using ih ..
        · rfl

/-- C9: the tool-augmented loop never mutates the `InferenceRequest`: it
seeds a loop-local copy of the message list and appends only to the copy, so
after `mcpInference` returns, `request.messages` equals its value before the
call. -/
theorem C9_request_not_mutated (oracle : LoopOracle) (req : InferenceRequest)
    (tools : List ToolDef) :
    (mcpInference oracle req tools).requestMessages = req.messages :=
  mcpLoopAux_requestMessages oracle req tools req.messages maxIterations 0
    (req.messages.map SimpleMessage.toChat) false

/-- Every successful outcome of the loop passes through `|| null`, so the
empty string is never returned. -/
theorem mcpLoopAux_outcome_ne_empty (oracle : LoopOracle) (req : InferenceRequest)
    (tools : List ToolDef) (reqMessages : List SimpleMessage) (fuel : Nat)
    (iterationCount : Nat) (messages : List ChatMessage) (finalMessage : Bool) :
    (mcpLoopAux oracle req tools reqMessages fuel iterationCount messages
      finalMessage).outcome ≠ .ok (some []) := by
  induction fuel generalizing iterationCount messages finalMessage with
  | zero => simp [mcpLoopAux, jsStrOrNull_ne_some_nil]
  | succ fuel ih =>
    simp only [mcpLoopAux]
    split
    · simp
    · split
      · exact ih _ _ _
      · split
        · exact ih _ _ _
        · simp [jsStrOrNull_ne_some_nil]

/-- C10: neither inference mode ever returns the empty string: whenever the
content that would be returned is empty, the `|| null` convention surfaces it
as absent instead; in particular content consisting solely of a thought block
yields absent from simple inference. -/
theorem C10_empty_content_absent :
    (∀ content, simpleInferenceResult content ≠ some []) ∧
    (∀ (oracle : LoopOracle) (req : InferenceRequest) (tools : List ToolDef),
      (mcpInference oracle req tools).outcome ≠ .ok (some [])) ∧
    simpleInferenceResult (some "<thought>plan</thought>".data) = none := by
  refine ⟨fun content => ?_, fun oracle req tools => ?_, by decide⟩
  · cases content with
    | none => simp [simpleInferenceResult]
    | some s =>
      by_cases hs : s = [] <;>
        simp [simpleInferenceResult, hs, jsStrOrNull_ne_some_nil]
  · exact mcpLoopAux_outcome_ne_empty oracle req tools req.messages maxIterations 0
      (req.messages.map SimpleMessage.toChat) false

/-- Parameters of a single pass: tools attached iff not the finalizing pass,
format attached iff finalizing — given the reachability invariant that the
flag is only ever set when a response format is declared. -/
theorem mkMcpParams_exclusive (req : InferenceRequest) (tools : List ToolDef)
    (messages : List ChatMessage) (finalMessage : Bool)
    (hinv : finalMessage = true → req.responseFormat.isSome = true) :
    (mkMcpParams req tools messages finalMessage).tools.isSome = !finalMessage ∧
    (mkMcpParams req tools messages finalMessage).response_format.isSome
      = finalMessage := by
  cases finalMessage with
  | false => simp [mkMcpParams]
  | true => simp [mkMcpParams, hinv rfl]

/-- The per-pass exclusivity holds for every pass the loop executes. -/
theorem mcpLoopAux_trace_exclusive (oracle : LoopOracle) (req : InferenceRequest)
    (tools : List ToolDef) (reqMessages : List SimpleMessage) (fuel : Nat) :
    ∀ (iterationCount : Nat) (messages : List ChatMessage) (finalMessage : Bool),
      (finalMessage = true → req.responseFormat.isSome = true) →
      ∀ pr ∈ (mcpLoopAux oracle req tools reqMessages fuel iterationCount messages
          finalMessage).trace,
        pr.params.tools.isSome = !pr.finalFlag ∧
        pr.params.response_format.isSome = pr.finalFlag := by
  induction fuel with
  | zero =>
    intro ic ms fm hinv pr hpr
    simp [mcpLoopAux] at hpr
  | succ fuel ih =>
    intro ic ms fm hinv pr hpr
    cases hrep : oracle.reply (ic + 1) with
    | error e =>
      simp only [mcpLoopAux, hrep, List.mem_singleton] at hpr
      subst hpr
      exact mkMcpParams_exclusive req tools ms fm hinv
    | ok assistantMessage =>
      cases htc : assistantMessage.bind (fun x => x.tool_calls) with
      | some l =>
        cases l with
        | cons tc tcs =>
          simp only [mcpLoopAux, hrep, htc, List.mem_cons] at hpr
          rcases hpr with hpr | hpr
          · subst hpr
            exact mkMcpParams_exclusive req tools ms fm hinv
          · exact ih _ _ fm hinv pr hpr
        | nil =>
          cases hrf : req.responseFormat with
          | some rf =>
            cases fm with
            | false =>
              simp only [mcpLoopAux, hrep, htc, hrf, List.mem_cons] at hpr
              rcases hpr with hpr | hpr
              · subst hpr
                exact mkMcpParams_exclusive req tools ms false (by simp)
              · exact ih _ _ true (fun _ => by simp [hrf]) pr hpr
            | true =>
              simp only [mcpLoopAux, hrep, htc, hrf, List.mem_singleton] at hpr
              subst hpr
              exact mkMcpParams_exclusive req tools ms true hinv
          | none =>
            simp only [mcpLoopAux, hrep, htc, hrf, List.mem_singleton] at hpr
            subst hpr
            exact mkMcpParams_exclusive req tools ms fm hinv
      | none =>
        cases hrf : req.responseFormat with
        | some rf =>
          cases fm with
          | false =>
            simp only [mcpLoopAux, hrep, htc, hrf, List.mem_cons] at hpr
            rcases hpr with hpr | hpr
            · subst hpr
              exact mkMcpParams_exclusive req tools ms false (by simp)
            · exact ih _ _ true (fun _ => by simp [hrf]) pr hpr
          | true =>
            simp only [mcpLoopAux, hrep, htc, hrf, List.mem_singleton] at hpr
            subst hpr
            exact mkMcpParams_exclusive req tools ms true hinv
        | none =>
          simp only [mcpLoopAux, hrep, htc, hrf, List.mem_singleton] at hpr
          subst hpr
          exact mkMcpParams_exclusive req tools ms fm hinv

/-- C4: on every pass of the tool-augmented loop, tools are attached exactly
when the pass is not the finalizing pass and the response format is attached
exactly on the finalizing pass; the two are never both present. -/
theorem C4_tools_format_exclusive (oracle : LoopOracle) (req : InferenceRequest)
    (tools : List ToolDef) :
    ∀ pr ∈ (mcpInference oracle req tools).trace,
      (pr.params.tools.isSome = !pr.finalFlag ∧
       pr.params.response_format.isSome = pr.finalFlag) ∧
      ¬(pr.params.tools.isSome = true ∧
        pr.params.response_format.isSome = true) := by
  intro pr hpr
  have h := mcpLoopAux_trace_exclusive oracle req tools req.messages maxIterations 0
    (req.messages.map SimpleMessage.toChat) false (by simp) pr hpr
  refine ⟨h, ?_⟩
  rintro ⟨h1, h2⟩
  rw [h.1] at h1
  rw [h.2] at h2
  rw [h2] at h1
  simp at h1

/-- C4 witness: the single pass of a concrete no-tool run offers the tool
list and no response format. -/
theorem C4_witness :
    (samplePassRecord.params.tools.isSome = !samplePassRecord.finalFlag ∧
     samplePassRecord.params.response_format.isSome = samplePassRecord.finalFlag) ∧
    ¬(samplePassRecord.params.tools.isSome = true ∧
      samplePassRecord.params.response_format.isSome = true) :=
  C4_tools_format_exclusive oracleNoTools sampleRequest [] samplePassRecord
    (by
      have h : (mcpInference oracleNoTools sampleRequest []).trace
          = [samplePassRecord] := rfl
      rw [h]
      exact List.mem_singleton_self _)

/-- C5: a tool-augmented run whose first pass returns no tool calls, with no
response format declared, terminates successfully after exactly one pass and
returns that pass's assistant content (empty content surfacing as absent per
the `|| null` convention, claim C10). -/
theorem C5_no_tools_one_pass (oracle : LoopOracle) (req : InferenceRequest)
    (tools : List ToolDef) (r₁ : AssistantReply)
    (hrf : req.responseFormat = none)
    (h1 : oracle.reply 1 = .ok (some r₁))
    (ht1 : r₁.tool_calls = none ∨ r₁.tool_calls = some []) :
    (mcpInference oracle req tools).outcome = .ok (jsStrOrNull r₁.content) ∧
    (mcpInference oracle req tools).trace.length = 1 ∧
    (mcpInference oracle req tools).messages =
      req.messages.map SimpleMessage.toChat ++
        [{ role := .assistant, content := some (r₁.content.getD []),
           tool_calls := r₁.tool_calls }] := by
  rcases ht1 with ht1 | ht1 <;>
    refine ⟨?_, ?_, ?_⟩ <;>
      simp [mcpInference, maxIterations, mcpLoopAux, h1, ht1, hrf]

/-- C5 witness: a concrete no-format run answering without tool calls stops
after its single pass with that content. -/
theorem C5_witness :
    (mcpInference oracleNoTools sampleRequest []).outcome = .ok (some "hi".data) ∧
    (mcpInference oracleNoTools sampleRequest []).trace.length = 1 := by
  have h := C5_no_tools_one_pass oracleNoTools sampleRequest []
    { content := some "hi".data } rfl rfl (Or.inl rfl)
  exact ⟨h.1, h.2.1⟩

/-- C3 (counterexample): the claim as frozen conditions only on pass 1
returning no tool calls, but the loop checks for tool calls on every pass
regardless of the finalizing flag; if the forced-reformat pass itself returns
a tool call, the run does not terminate at pass 2 — here it runs all 5
passes instead of exactly 2. -/
theorem C3_counterexample :
    sampleRequestFmt.responseFormat.isSome = true ∧
    oracleLateTools.reply 1 =
      .ok (some { content := some "draft".data, tool_calls := none }) ∧
    (mcpInference oracleLateTools sampleRequestFmt []).trace.length = 5 :=
  ⟨rfl, rfl, rfl⟩

/-- C3 (amended): with a declared response format, a first pass returning no
tool calls and a second (finalizing) pass likewise returning no tool calls,
the loop appends exactly one synthetic reformatting user message, performs
exactly one further pass with tools omitted and the format attached, and
terminates returning the second pass's assistant content. -/
theorem C3_amended_forced_reformat (oracle : LoopOracle) (req : InferenceRequest)
    (tools : List ToolDef) (rf : ResponseFormat) (r₁ r₂ : AssistantReply)
    (hrf : req.responseFormat = some rf)
    (h1 : oracle.reply 1 = .ok (some r₁))
    (ht1 : r₁.tool_calls = none ∨ r₁.tool_calls = some [])
    (h2 : oracle.reply 2 = .ok (some r₂))
    (ht2 : r₂.tool_calls = none ∨ r₂.tool_calls = some []) :
    (mcpInference oracle req tools).outcome = .ok (jsStrOrNull r₂.content) ∧
    (mcpInference oracle req tools).messages =
      req.messages.map SimpleMessage.toChat ++
        [{ role := .assistant, content := some (r₁.content.getD []),
           tool_calls := r₁.tool_calls },
         reformatMessage rf,
         { role := .assistant, content := some (r₂.content.getD []),
           tool_calls := r₂.tool_calls }] ∧
    (mcpInference oracle req tools).trace.length = 2 ∧
    (mcpInference oracle req tools).trace.map (fun pr => pr.params.tools) =
      [some tools, none] ∧
    (mcpInference oracle req tools).trace.map
        (fun pr => pr.params.response_format) = [none, some rf] := by
  rcases ht1 with ht1 | ht1 <;> rcases ht2 with ht2 | ht2 <;>
    refine ⟨?_, ?_, ?_, ?_, ?_⟩ <;>
      simp [mcpInference, maxIterations, mcpLoopAux, h1, h2, ht1, ht2, hrf,
        mkMcpParams]

/-- C3 witness for the amended claim: a concrete reformat run stops after
pass 2 with the reformatted content. -/
theorem C3_witness :
    (mcpInference oracleReformat sampleRequestFmt []).outcome =
      .ok (some "final".data) ∧
    (mcpInference oracleReformat sampleRequestFmt []).trace.length = 2 := by
  have h := C3_amended_forced_reformat oracleReformat sampleRequestFmt []
    sampleFormat { content := some "draft".data } { content := some "final".data }
    rfl rfl (Or.inl rfl) rfl (Or.inl rfl)
  exact ⟨h.1, h.2.2.1⟩

/-- Every message produced by the tool executor carries the `tool` role. -/
theorem executeToolCalls_role (results : List Str) (toolCalls : List ToolCall) :
    ∀ m ∈ executeToolCalls results toolCalls, m.role = Role.tool := by
  intro m hm
  simp only [executeToolCalls, List.mem_map] at hm
  obtain ⟨ic, _, rfl⟩ := hm
  rfl

/-- Appending tool-role messages does not change the most recent assistant
message. -/
theorem lastAssistantMessage_append_tools (l₁ l₂ : List ChatMessage)
    (h : ∀ m ∈ l₂, m.role = Role.tool) :
    lastAssistantMessage (l₁ ++ l₂) = lastAssistantMessage l₁ := by
  unfold lastAssistantMessage
  rw [List.reverse_append, List.find?_append]
  have hnone : l₂.reverse.find? (fun m => m.role == Role.assistant) = none := by
    rw [List.find?_eq_none]
    intro x hx
    rw [h x (List.mem_reverse.mp hx)]
    simp
  rw [hnone]
  rfl

/-- Appending an assistant message makes it the most recent one. -/
theorem lastAssistantMessage_append_assistant (l : List ChatMessage)
    (m : ChatMessage) (h : m.role = Role.assistant) :
    lastAssistantMessage (l ++ [m]) = some m := by
  unfold lastAssistantMessage
  rw [List.reverse_append]
  have : ([m] : List ChatMessage).reverse = [m] := rfl
  rw [this, List.singleton_append]
  rw [List.find?_cons_of_pos]
  rw [h]
  rfl

/-- C2: when each of the 5 passes requests at least one tool call, the loop
reaches the iteration cap without raising an error and returns the content of
the most recent assistant message in the history — the 5th pass's assistant
message (empty content surfacing as absent per the `|| null` convention,
claim C10). -/
theorem C2_cap_exhaustion (oracle : LoopOracle) (req : InferenceRequest)
    (tools : List ToolDef) (r : Nat → AssistantReply) (tc : Nat → ToolCall)
    (tcs : Nat → List ToolCall)
    (hr : ∀ i, 1 ≤ i → i ≤ 5 → oracle.reply i = .ok (some (r i)))
    (htc : ∀ i, 1 ≤ i → i ≤ 5 → (r i).tool_calls = some (tc i :: tcs i)) :
    (mcpInference oracle req tools).outcome =
      .ok (jsStrOrNull (some ((r 5).content.getD []))) ∧
    lastAssistantMessage (mcpInference oracle req tools).messages =
      some { role := .assistant, content := some ((r 5).content.getD []),
             tool_calls := some (tc 5 :: tcs 5) } ∧
    (mcpInference oracle req tools).trace.length = 5 := by
  have h1 := hr 1 (by norm_num) (by norm_num)
  have h2 := hr 2 (by norm_num) (by norm_num)
  have h3 := hr 3 (by norm_num) (by norm_num)
  have h4 := hr 4 (by norm_num) (by norm_num)
  have h5 := hr 5 (by norm_num) (by norm_num)
  have t1 := htc 1 (by norm_num) (by norm_num)
  have t2 := htc 2 (by norm_num) (by norm_num)
  have t3 := htc 3 (by norm_num) (by norm_num)
  have t4 := htc 4 (by norm_num) (by norm_num)
  have t5 := htc 5 (by norm_num) (by norm_num)
  have e1 : (0 : Nat) + 1 = 1 := rfl
  have e2 : (1 : Nat) + 1 = 2 := rfl
  have e3 : (2 : Nat) + 1 = 3 := rfl
  have e4 : (3 : Nat) + 1 = 4 := rfl
  have e5 : (4 : Nat) + 1 = 5 := rfl
  refine ⟨?_, ?_, ?_⟩ <;>
    simp only [mcpInference, maxIterations, mcpLoopAux, e1, e2, e3, e4, e5,
      h1, h2, h3, h4, h5, Option.bind, t1, t2, t3, t4, t5, List.length_cons,
      List.length_nil]
  · rw [lastAssistantMessage_append_tools _ _ (executeToolCalls_role _ _),
      lastAssistantMessage_append_assistant _ _ rfl]
  · rw [lastAssistantMessage_append_tools _ _ (executeToolCalls_role _ _),
      lastAssistantMessage_append_assistant _ _ rfl]

/-- C2 witness: a concrete run requesting a tool call on every pass stops at
the cap and returns the 5th pass's content. -/
theorem C2_witness :
    (mcpInference oracleAllTools sampleRequest []).outcome =
      .ok (some "work".data) ∧
    (mcpInference oracleAllTools sampleRequest []).trace.length = 5 := by
  have h := C2_cap_exhaustion oracleAllTools sampleRequest []
    (fun _ => { content := some "work".data, tool_calls := some [sampleToolCall] })
    (fun _ => sampleToolCall) (fun _ => [])
    (fun i _ _ => rfl) (fun i _ _ => rfl)
  exact ⟨h.1, h.2.2⟩
